import Mathlib

/-!
Verification development for the Schedule-Management workforce rostering
repository.

The repository couples a CP-SAT rostering engine (the core) with Django
plumbing: a diagnostic script (`diagnostic_test.py`), authentication
endpoints (`schedule/auth_views.py`), URL routing, and a test suite
(`schedule/tests_algorithm.py`).  The diagnostic arithmetic and the
authentication endpoint are embedded here directly from their Python
source.  The engine itself (`schedule/algorithms/solver.py`,
`schedule/algorithms/config.py`, `schedule/algorithms/soldier.py`) is not
part of the available source tree; the definitions below that describe it
are modelled from the specification, as their doc comments state, and the
theorems about them are statements about that spec model.
-/

namespace ScheduleManage

/-! ## Core data model (modelled from the spec) -/

/-- Modelled from the spec: the four solver status codes of sections 4.3
and 6 (`schedule/algorithms/solver.py` is missing from the source tree). -/
inductive Status where
  | OPTIMAL
  | FEASIBLE
  | INFEASIBLE
  | UNKNOWN
  deriving DecidableEq, Repr

/-- Modelled from the spec: the fail-fast input-validation error kinds of
sections 4.1 and 7. -/
inductive ValidationError where
  | emptyPopulation
  | degenerateHorizon
  | invalidTarget
  | duplicateIds
  deriving DecidableEq, Repr

/-- Modelled from the spec: the soldier record of sections 3 and 6
(`schedule/algorithms/soldier.py` is missing from the source tree).
Calendar dates are integer day numbers counted from a fixed Monday epoch,
so the Python `date.weekday()` numbering (Monday = 0 .. Sunday = 6) is the
day number modulo 7. -/
structure Soldier where
  id : Nat
  name : String
  unavailableDates : List Int
  exceptionalOutput : Bool
  weekendOnly : Bool
  deriving DecidableEq, Repr

/-- Modelled from the spec: the scheduling parameters of sections 3 and 6.
Targets are signed so that the negative-target validation of section 4.1 is
expressible. -/
structure Params where
  startDate : Int
  endDate : Int
  baseTarget : Int
  homeTarget : Int
  maxConsecBase : Nat
  maxConsecHome : Nat
  minBaseBlock : Nat
  minRequired : Nat
  deriving DecidableEq, Repr

/-- Number of days in the inclusive horizon, `end_date - start_date + 1`. -/
def Params.nDays (p : Params) : Nat := (p.endDate - p.startDate + 1).toNat

namespace config

/-- Modelled from the spec: weekend constants fixed by the system
(`schedule/algorithms/config.py` is missing from the source tree).  Python
weekday numbering, Friday = 4. -/
def FRIDAY_WEEKDAY : Nat := 4

/-- Modelled from the spec: Saturday = 5 in Python weekday numbering. -/
def SATURDAY_WEEKDAY : Nat := 5

/-- Modelled from the spec: Sunday = 6 in Python weekday numbering. -/
def SUNDAY_WEEKDAY : Nat := 6

/-- Modelled from the spec: penalty weight of a one-day block, the highest
weight; the spec (section 4.2.4) sets the weights as powers of ten. -/
def W_ONE_DAY : Nat := 1000000

/-- Modelled from the spec: penalty weight of an over-long home block. -/
def W_LONG_HOME : Nat := 100000

/-- Modelled from the spec: penalty weight of an over-long base block. -/
def W_LONG_BASE : Nat := 10000

/-- Modelled from the spec: penalty weight of one day of daily-coverage
shortfall. -/
def W_SHORTAGE : Nat := 1000

/-- Modelled from the spec: penalty weight of one day of per-soldier
target deviation. -/
def W_TARGET : Nat := 100

/-- Modelled from the spec: penalty weight of a short base block. -/
def W_SHORT_BLOCK : Nat := 10

/-- Modelled from the spec: penalty weight of a weekend-only soldier
assigned to base on a non-weekend day; smaller than the one-day-block
weight as section 8 scenario 6 requires. -/
def W_WEEKEND : Nat := 10

/-- Modelled from the spec: penalty weight of the windowed
maximum-consecutive-days slack variables. -/
def W_MAXVIOL : Nat := 10

end config

/-- Python weekday number of a calendar day number (Monday epoch). -/
def weekdayOf (dt : Int) : Nat := (dt.emod 7).toNat

/-- Modelled from the spec: membership of a weekday number in the fixed
weekend set {Friday, Saturday, Sunday} (sections 3 and 6); the set is a
constant of the system, no caller input reaches it. -/
def isWeekendWeekday (w : Nat) : Bool :=
  w == config.FRIDAY_WEEKDAY || w == config.SATURDAY_WEEKDAY || w == config.SUNDAY_WEEKDAY

/-- Whether day index `d` of the horizon falls on a weekend. -/
def isWeekendDay (p : Params) (d : Nat) : Bool :=
  isWeekendWeekday (weekdayOf (p.startDate + d))

/-- Modelled from the spec: the Parameter Resolver internalizes raw
unavailable calendar dates to day indices inside the horizon
(sections 3 and 4.1). -/
def resolveUnavailable (p : Params) (s : Soldier) : List Nat :=
  s.unavailableDates.filterMap (fun dt =>
    if p.startDate ≤ dt ∧ dt ≤ p.endDate then some (dt - p.startDate).toNat else none)

/-- Number of weekend days in the horizon. -/
def weekendDayCount (p : Params) : Nat :=
  ((List.range p.nDays).filter (fun d => isWeekendDay p d)).length

/-- Modelled from the spec: per-soldier effective base target derivation of
section 4.1 (exceptional-output bonus of two days capped at the horizon,
weekend-only cap at the number of weekend days). -/
def effectiveBaseTarget (p : Params) (s : Soldier) : Nat :=
  let t0 := p.baseTarget.toNat
  let t1 := if s.exceptionalOutput then min p.nDays (t0 + 2) else t0
  if s.weekendOnly then min t1 (weekendDayCount p) else t1

/-- Maximal runs of equal daily status in a row, as (status, length)
pairs, in day order. -/
def blocks : List Bool → List (Bool × Nat)
  | [] => []
  | b :: rest =>
    match blocks rest with
    | [] => [(b, 1)]
    | (c, n) :: t => if b = c then (b, n + 1) :: t else (b, 1) :: (c, n) :: t

/-- Attach start positions to a run list produced by `blocks`. -/
def withStarts : Nat → List (Bool × Nat) → List (Bool × Nat × Nat)
  | _, [] => []
  | pos, (b, n) :: t => (b, pos, n) :: withStarts (pos + n) t

/-- Runs of a row as (status, start index, length) triples. -/
def blocksPos (r : List Bool) : List (Bool × Nat × Nat) := withStarts 0 (blocks r)

/-- Modelled from the spec: the one-day-block counter of section 4.2.3,
counting base and home blocks of length one. -/
def oneDayCount (r : List Bool) : Nat :=
  ((blocks r).filter (fun bl => bl.2 == 1)).length

/-- Modelled from the spec: counter of blocks of status `which` whose
length exceeds `k` (the long-block indicators of section 4.2.3). -/
def longCount (which : Bool) (k : Nat) (r : List Bool) : Nat :=
  ((blocks r).filter (fun bl => bl.1 == which && decide (k < bl.2))).length

/-- Modelled from the spec: counter of short base blocks of section 4.2.3;
a base block starting at day `d` with `d + m ≤ t` and length below the
minimum block length `m`. -/
def shortBaseCount (m t : Nat) (r : List Bool) : Nat :=
  ((blocksPos r).filter
    (fun bl => bl.1 == true && decide (bl.2.1 + m ≤ t) && decide (bl.2.2 < m))).length

/-- Number of base days in the window of `len` days starting at day `d`. -/
def windowSum (r : List Bool) (d len : Nat) : Nat := ((r.drop d).take len).count true

/-- Modelled from the spec: total windowed slack of the
maximum-consecutive-days soft constraint of section 4.2.2; each window of
length `k + 1` contributes its excess over `k`. -/
def maxConsecSlack (k t : Nat) (r : List Bool) : Nat :=
  ((List.range (t - k)).map (fun d => windowSum r d (k + 1) - k)).sum

/-- Pointwise negation of a row, turning home runs into base runs. -/
def negRow (r : List Bool) : List Bool := r.map (fun b => !b)

/-- Number of soldiers on base on day `d` of assignment matrix `x`. -/
def dailyCount (x : List (List Bool)) (d : Nat) : Nat :=
  (x.filter (fun r => r.getD d false)).length

/-- Modelled from the spec: daily coverage slack `u[d]`, the shortfall of
coverage below the required minimum (section 4.2.2). -/
def shortfall (p : Params) (x : List (List Bool)) (d : Nat) : Nat :=
  p.minRequired - dailyCount x d

/-- Total coverage slack over the horizon. -/
def shortfallSum (p : Params) (x : List (List Bool)) : Nat :=
  ((List.range p.nDays).map (shortfall p x)).sum

/-- Distance of two naturals. -/
def natAbsDiff (a b : Nat) : Nat := (a - b) + (b - a)

/-- Modelled from the spec: per-soldier target deviation slack of
section 4.2.2. -/
def targetDev (p : Params) (s : Soldier) (r : List Bool) : Nat :=
  natAbsDiff (r.count true) (effectiveBaseTarget p s)

/-- Modelled from the spec: weekend-only slack of section 4.2.2, counting
base days of a weekend-only soldier falling outside the weekend. -/
def weekendSlack (p : Params) (s : Soldier) (r : List Bool) : Nat :=
  if s.weekendOnly then
    ((List.range p.nDays).filter (fun d => r.getD d false && !(isWeekendDay p d))).length
  else 0

/-- Modelled from the spec: the per-soldier part of the weighted objective
of section 4.2.4. -/
def soldierPenalty (p : Params) (s : Soldier) (r : List Bool) : Nat :=
  config.W_ONE_DAY * oneDayCount r
  + config.W_LONG_HOME * longCount false p.maxConsecHome r
  + config.W_LONG_BASE * longCount true p.maxConsecBase r
  + config.W_SHORT_BLOCK * shortBaseCount p.minBaseBlock p.nDays r
  + config.W_TARGET * targetDev p s r
  + config.W_WEEKEND * weekendSlack p s r
  + config.W_MAXVIOL * (maxConsecSlack p.maxConsecBase p.nDays r
      + maxConsecSlack p.maxConsecHome p.nDays (negRow r))

/-- Modelled from the spec: the full weighted objective of section 4.2.4,
with each slack variable at its least feasible value for the assignment. -/
def objective (p : Params) (soldiers : List Soldier) (x : List (List Bool)) : Nat :=
  ((soldiers.zip x).map (fun sr => soldierPenalty p sr.1 sr.2)).sum
  + config.W_SHORTAGE * shortfallSum p x

/-- Modelled from the spec: the only unconditionally hard per-soldier rule
(section 4.2.1): the row has one Boolean per day and every internalized
unavailable day is fixed to home (`false`). -/
def rowOk (p : Params) (s : Soldier) (r : List Bool) : Bool :=
  r.length == p.nDays &&
  (resolveUnavailable p s).all (fun d => r.getD d true == false)

/-- Modelled from the spec: hard admissibility of a full assignment matrix,
one row per soldier in input order (sections 4.2.1 and 4.2.5). -/
def admissibleB (p : Params) : List Soldier → List (List Bool) → Bool
  | [], [] => true
  | s :: ss, r :: x => rowOk p s r && admissibleB p ss x
  | _, _ => false

/-- All Boolean rows of length `n`, in a fixed deterministic order. -/
def allRows : Nat → List (List Bool)
  | 0 => [[]]
  | n + 1 => (allRows n).map (fun r => false :: r) ++ (allRows n).map (fun r => true :: r)

/-- All assignment matrices with `n` rows of length `t`, in the fixed
(soldier index, day index) order the spec requires of the Builder
(section 4.2.5). -/
def allMatrices : Nat → Nat → List (List (List Bool))
  | 0, _ => [[]]
  | n + 1, t => (allRows t).flatMap (fun r => (allMatrices n t).map (fun x => r :: x))

/-- First element of the list minimizing `f`, scanning left to right. -/
def pickMinAux {α : Type} (f : α → Nat) (l : List α) (a : α) : α :=
  l.foldl (fun b c => if f c < f b then c else b) a

/-- First minimizer of `f` over a list, `none` on the empty list. -/
def pickMin {α : Type} (f : α → Nat) : List α → Option α
  | [] => none
  | a :: as => some (pickMinAux f as a)

/-- Modelled from the spec: the extracted solution of section 4.4 — the
assignment matrix, the achieved objective, the per-day headcounts and the
per-soldier base-day totals. -/
structure Solution where
  x : List (List Bool)
  objectiveValue : Nat
  dailyCounts : List Nat
  baseTotals : List Nat
  deriving DecidableEq, Repr

/-- Modelled from the spec: the Solution Extractor of section 4.4. -/
def extract (p : Params) (soldiers : List Soldier) (x : List (List Bool)) : Solution :=
  { x := x
    objectiveValue := objective p soldiers x
    dailyCounts := (List.range p.nDays).map (dailyCount x)
    baseTotals := x.map (fun r => r.count true) }

/-- Uniqueness of soldier identifiers. -/
def uniqueIds : List Soldier → Bool
  | [] => true
  | s :: ss => !(ss.any (fun t => t.id == s.id)) && uniqueIds ss

/-- Modelled from the spec: the fail-fast input validation of sections 4.1
and 7, checked before any model is built. -/
def validateInput (p : Params) (soldiers : List Soldier) : Option ValidationError :=
  if soldiers.isEmpty then some .emptyPopulation
  else if p.endDate - p.startDate + 1 ≤ 0 then some .degenerateHorizon
  else if p.baseTarget < 0 ∨ p.homeTarget < 0 then some .invalidTarget
  else if !uniqueIds soldiers then some .duplicateIds
  else none

/-- The hard-feasible assignments of the model, in builder order. -/
def feasibleAssignments (p : Params) (soldiers : List Soldier) : List (List (List Bool)) :=
  (allMatrices soldiers.length p.nDays).filter (fun x => admissibleB p soldiers x)

/-- Modelled from the spec: the single entry point `solve(params, soldiers)`
of sections 2 and 6 (`schedule/algorithms/solver.py` is missing from the
source tree).  Validation fails fast; otherwise the model minimizes the
objective over the hard-feasible assignments and the extractor reads the
result.  The idealized driver proves optimality whenever a feasible
assignment exists, so the best-found status is `OPTIMAL`; `INFEASIBLE`
carries a null solution. -/
def solve (p : Params) (soldiers : List Soldier) :
    Except ValidationError (Option Solution × Status) :=
  match validateInput p soldiers with
  | some e => .error e
  | none =>
    match pickMin (objective p soldiers) (feasibleAssignments p soldiers) with
    | none => .ok (none, Status.INFEASIBLE)
    | some x => .ok (some (extract p soldiers x), Status.OPTIMAL)

/-- Status component of a solver result, `none` on a validation error. -/
def statusOf : Except ValidationError (Option Solution × Status) → Option Status
  | .ok r => some r.2
  | .error _ => none

/-- Achieved objective of a solver result carrying a solution. -/
def objectiveOf : Except ValidationError (Option Solution × Status) → Option Nat
  | .ok (some sol, _) => some sol.objectiveValue
  | _ => none

/-- Total coverage slack of the solution returned by a solve call, `none`
when no solution is returned. -/
def returnedShortfallSum (p : Params) (soldiers : List Soldier) : Option Nat :=
  match solve p soldiers with
  | .ok (some sol, _) => some (shortfallSum p sol.x)
  | _ => none

/-! ## Diagnostic arithmetic (from `diagnostic_test.py`) -/

/-- From `diagnostic_test.py` line 33: minimum number of base blocks,
`(base_days + max_consec_base - 1) // max_consec_base`; Python `//` is
flooring division, `Int.fdiv`. -/
def min_blocks (base_days max_consec_base : Int) : Int :=
  (base_days + max_consec_base - 1).fdiv max_consec_base

/-- From `diagnostic_test.py` line 34: `gaps_needed = min_blocks - 1`. -/
def gaps_needed (base_days max_consec_base : Int) : Int :=
  min_blocks base_days max_consec_base - 1

/-- From `diagnostic_test.py` line 35:
`min_gap_days = gaps_needed * min_base_block`. -/
def min_gap_days (base_days max_consec_base min_base_block : Int) : Int :=
  gaps_needed base_days max_consec_base * min_base_block

/-- From `diagnostic_test.py` line 44:
`total_soldier_days = len(soldiers) * total_days`. -/
def total_soldier_days (numSoldiers totalDays : Nat) : Nat := numSoldiers * totalDays

/-- From `diagnostic_test.py` line 46:
`available_days = total_soldier_days - total_constraints`. -/
def available_days (numSoldiers totalDays totalConstraints : Nat) : Int :=
  (total_soldier_days numSoldiers totalDays : Int) - totalConstraints

/-- From `diagnostic_test.py` line 47:
`required_days = min_required * total_days`. -/
def required_days (minRequired totalDays : Nat) : Int :=
  ((minRequired * totalDays : Nat) : Int)

/-- From `diagnostic_test.py` line 52: the unguarded true division
`available_days / required_days`; Python raises `ZeroDivisionError` when
the divisor is zero, modelled as `none`. -/
def resourceQuotient (avail req : Int) : Option ℚ :=
  if req = 0 then none else some ((avail : ℚ) / (req : ℚ))

/-! ## Authentication endpoint (from `schedule/auth_views.py`) -/

/-- Server-side state visible to the register endpoint: the registered
usernames, the issued tokens (username, key) and the next fresh key. -/
structure AuthState where
  users : List String
  tokens : List (String × Nat)
  nextKey : Nat
  deriving DecidableEq, Repr

/-- A register request; `none` models an absent field of `request.data`. -/
structure RegisterRequest where
  username : Option String
  password : Option String
  email : Option String
  deriving DecidableEq, Repr

/-- HTTP response of the register endpoint: status code and the token key
of the 201 body (absent on errors). -/
structure RegisterResponse where
  httpStatus : Nat
  token : Option Nat
  deriving DecidableEq, Repr

/-- Python falsiness of an optional string: absent or empty. -/
def falsyStr : Option String → Bool
  | none => true
  | some s => s.isEmpty

/-- From `schedule/auth_views.py` lines 34 to 75: the register endpoint.
Checks run in source order — missing username or password, existing
username, password shorter than six characters — each answering 400 and
leaving the state untouched; otherwise `create_user` adds the user and
`Token.objects.get_or_create` issues the token returned with 201. -/
def register (st : AuthState) (req : RegisterRequest) : RegisterResponse × AuthState :=
  if falsyStr req.username || falsyStr req.password then
    (⟨400, none⟩, st)
  else if req.username.getD "" ∈ st.users then
    (⟨400, none⟩, st)
  else if (req.password.getD "").length < 6 then
    (⟨400, none⟩, st)
  else
    match st.tokens.find? (fun t => t.1 == req.username.getD "") with
    | some t =>
      (⟨201, some t.2⟩, { st with users := st.users ++ [req.username.getD ""] })
    | none =>
      (⟨201, some st.nextKey⟩,
        { st with users := st.users ++ [req.username.getD ""],
                  tokens := st.tokens ++ [(req.username.getD "", st.nextKey)],
                  nextKey := st.nextKey + 1 })

/-- The error condition of the register endpoint, in source order. -/
def registerRejects (st : AuthState) (req : RegisterRequest) : Bool :=
  falsyStr req.username || falsyStr req.password
  || decide (req.username.getD "" ∈ st.users)
  || decide ((req.password.getD "").length < 6)

/-- Referential integrity of issued tokens: every token belongs to a
registered user (the Django foreign key of `Token`). -/
def TokenIntegrity (st : AuthState) : Prop :=
  ∀ t ∈ st.tokens, t.1 ∈ st.users

end ScheduleManage

namespace ScheduleManage

/-! ## Helper lemmas -/

theorem mem_allRows {n : Nat} {r : List Bool} : r ∈ allRows n ↔ r.length = n := by
  induction n generalizing r with
  | zero =>
    simp only [allRows, List.mem_singleton, List.length_eq_zero]
  | succ n ih =>
    cases r with
    | nil =>
      simp [allRows]
    | cons b r₀ =>
      simp only [allRows, List.mem_append, List.mem_map, List.length_cons,
        Nat.succ.injEq]
      constructor
      · rintro (⟨r₁, hr₁, heq⟩ | ⟨r₁, hr₁, heq⟩) <;>
          (cases heq; exact ih.mp hr₁)
      · intro hlen
        cases b
        · exact Or.inl ⟨r₀, ih.mpr hlen, rfl⟩
        · exact Or.inr ⟨r₀, ih.mpr hlen, rfl⟩

theorem mem_allMatrices {n t : Nat} {x : List (List Bool)} :
    x ∈ allMatrices n t ↔ x.length = n ∧ ∀ r ∈ x, r.length = t := by
  induction n generalizing x with
  | zero =>
    simp only [allMatrices, List.mem_singleton]
    constructor
    · rintro rfl; exact ⟨rfl, by intro r hr; cases hr⟩
    · rintro ⟨h, _⟩; exact List.length_eq_zero.mp h
  | succ n ih =>
    cases x with
    | nil => simp [allMatrices]
    | cons r x₀ =>
      simp only [allMatrices, List.mem_flatMap, List.mem_map, List.length_cons,
        Nat.succ.injEq]
      constructor
      · rintro ⟨r₁, hr₁, x₁, hx₁, heq⟩
        cases heq
        obtain ⟨hl, hall⟩ := ih.mp hx₁
        refine ⟨hl, ?_⟩
        intro rr hrr
        rcases List.mem_cons.mp hrr with rfl | hmem
        · exact mem_allRows.mp hr₁
        · exact hall rr hmem
      · rintro ⟨hl, hall⟩
        exact ⟨r, mem_allRows.mpr (hall r (List.mem_cons_self _ _)), x₀,
          ih.mpr ⟨hl, fun rr hmem => hall rr (List.mem_cons_of_mem _ hmem)⟩, rfl⟩

theorem pickMinAux_cons {α : Type} (f : α → Nat) (c : α) (cs : List α) (a : α) :
    pickMinAux f (c :: cs) a = pickMinAux f cs (if f c < f a then c else a) := rfl

theorem pickMinAux_mem {α : Type} (f : α → Nat) (l : List α) (a : α) :
    pickMinAux f l a = a ∨ pickMinAux f l a ∈ l := by
  induction l generalizing a with
  | nil => exact Or.inl rfl
  | cons c cs ih =>
    rw [pickMinAux_cons]
    rcases ih (if f c < f a then c else a) with h | h
    · rw [h]
      split
      · exact Or.inr (List.mem_cons_self _ _)
      · exact Or.inl rfl
    · exact Or.inr (List.mem_cons_of_mem _ h)

theorem pickMin_mem {α : Type} {f : α → Nat} {l : List α} {a : α}
    (h : pickMin f l = some a) : a ∈ l := by
  cases l with
  | nil => cases h
  | cons b bs =>
    simp only [pickMin, Option.some.injEq] at h
    rcases pickMinAux_mem f bs b with h₀ | h₀
    · rw [← h, h₀]; exact List.mem_cons_self _ _
    · rw [← h]; exact List.mem_cons_of_mem _ h₀

theorem rowOk_spec {p : Params} {s : Soldier} {r : List Bool} (h : rowOk p s r = true) :
    r.length = p.nDays ∧ ∀ d ∈ resolveUnavailable p s, r[d]? = some false := by
  unfold rowOk at h
  rw [Bool.and_eq_true] at h
  obtain ⟨h₁, h₂⟩ := h
  refine ⟨by simpa using h₁, ?_⟩
  intro d hd
  have h₃ : r.getD d true = false := by simpa using List.all_eq_true.mp h₂ d hd
  rw [List.getD_eq_getElem?_getD] at h₃
  cases hr : r[d]? with
  | none => rw [hr] at h₃; simp at h₃
  | some b => rw [hr] at h₃; simp only [Option.getD_some] at h₃; rw [h₃]

theorem admissibleB_spec {p : Params} : ∀ {ss : List Soldier} {x : List (List Bool)},
    admissibleB p ss x = true →
    x.length = ss.length ∧
    ∀ (i : Nat) (s : Soldier) (r : List Bool),
      ss[i]? = some s → x[i]? = some r → rowOk p s r = true := by
  intro ss
  induction ss with
  | nil =>
    intro x h
    cases x with
    | nil =>
      refine ⟨rfl, ?_⟩
      intro i s r hs
      cases i <;> simp at hs
    | cons r x₀ => simp [admissibleB] at h
  | cons s ss ih =>
    intro x h
    cases x with
    | nil => simp [admissibleB] at h
    | cons r x₀ =>
      rw [show admissibleB p (s :: ss) (r :: x₀) = (rowOk p s r && admissibleB p ss x₀)
          from rfl, Bool.and_eq_true] at h
      obtain ⟨h₁, h₂⟩ := h
      obtain ⟨hl, hrec⟩ := ih h₂
      refine ⟨by simp [hl], ?_⟩
      intro i si ri hs hx
      cases i with
      | zero =>
        simp only [List.getElem?_cons_zero, Option.some.injEq] at hs hx
        rw [← hs, ← hx]; exact h₁
      | succ j =>
        simp only [List.getElem?_cons_succ] at hs hx
        exact hrec j si ri hs hx

theorem resolveUnavailable_lt {p : Params} {s : Soldier} {d : Nat}
    (h : d ∈ resolveUnavailable p s) : d < p.nDays := by
  unfold resolveUnavailable at h
  rw [List.mem_filterMap] at h
  obtain ⟨dt, _, hdt⟩ := h
  split at hdt
  · next hcond =>
    injection hdt with hdt
    unfold Params.nDays
    omega
  · cases hdt

theorem allHome_admissible (p : Params) : ∀ ss : List Soldier,
    admissibleB p ss (List.replicate ss.length (List.replicate p.nDays false)) = true := by
  intro ss
  induction ss with
  | nil => rfl
  | cons s ss ih =>
    rw [show (s :: ss).length = ss.length + 1 from rfl, List.replicate_succ]
    rw [show admissibleB p (s :: ss)
        (List.replicate p.nDays false :: List.replicate ss.length (List.replicate p.nDays false))
        = (rowOk p s (List.replicate p.nDays false)
            && admissibleB p ss (List.replicate ss.length (List.replicate p.nDays false)))
        from rfl, Bool.and_eq_true]
    refine ⟨?_, ih⟩
    unfold rowOk
    rw [Bool.and_eq_true]
    refine ⟨by simp, ?_⟩
    rw [List.all_eq_true]
    intro d hd
    have hlt := resolveUnavailable_lt hd
    rw [List.getD_eq_getElem?_getD, List.getElem?_replicate, if_pos hlt]
    rfl

theorem validateInput_none {p : Params} {ss : List Soldier}
    (hne : ss ≠ []) (hdays : 0 < p.endDate - p.startDate + 1)
    (hbt : 0 ≤ p.baseTarget) (hht : 0 ≤ p.homeTarget)
    (hids : uniqueIds ss = true) : validateInput p ss = none := by
  unfold validateInput
  rw [if_neg (by simpa [List.isEmpty_iff] using hne),
    if_neg (by omega),
    if_neg (by omega),
    if_neg (by simp [hids])]

theorem solve_opt {p : Params} {ss : List Soldier}
    (hv : validateInput p ss = none) :
    ∃ x, x ∈ feasibleAssignments p ss ∧
      solve p ss = .ok (some (extract p ss x), Status.OPTIMAL) := by
  have hmem : List.replicate ss.length (List.replicate p.nDays false)
      ∈ feasibleAssignments p ss := by
    unfold feasibleAssignments
    rw [List.mem_filter]
    constructor
    · rw [mem_allMatrices]
      refine ⟨by simp, ?_⟩
      intro r hr
      rw [List.eq_of_mem_replicate hr]
      simp
    · simpa using allHome_admissible p ss
  have hne : feasibleAssignments p ss ≠ [] := by
    intro hnil
    rw [hnil] at hmem
    cases hmem
  obtain ⟨a, as, hcons⟩ := List.exists_cons_of_ne_nil hne
  refine ⟨pickMinAux (objective p ss) as a, ?_, ?_⟩
  · rw [hcons]
    rcases pickMinAux_mem (objective p ss) as a with h | h
    · rw [h]; exact List.mem_cons_self _ _
    · exact List.mem_cons_of_mem _ h
  · unfold solve
    rw [hv, hcons]
    rfl

end ScheduleManage

namespace ScheduleManage

/-! ## Claim theorems -/

/-- C1: for every returned solution (status `OPTIMAL` or `FEASIBLE`), every
soldier is assigned Home (`false`) on every day of the soldier's
internalized unavailable set; unavailability is the hard rule every
returned assignment satisfies. -/
theorem returned_solution_respects_unavailability
    (p : Params) (ss : List Soldier) (sol : Solution) (st : Status)
    (h : solve p ss = .ok (some sol, st)) :
    ∀ (i : Nat) (s : Soldier) (r : List Bool),
      ss[i]? = some s → sol.x[i]? = some r →
      ∀ d ∈ resolveUnavailable p s, r[d]? = some false := by
  unfold solve at h
  cases hv : validateInput p ss with
  | some e => rw [hv] at h; simp at h
  | none =>
    rw [hv] at h
    cases hpk : pickMin (objective p ss) (feasibleAssignments p ss) with
    | none =>
      rw [hpk] at h
      simp at h
    | some x =>
      rw [hpk] at h
      simp only [Except.ok.injEq, Prod.mk.injEq, Option.some.injEq] at h
      obtain ⟨hsol, hst⟩ := h
      have hxmem := pickMin_mem hpk
      have hadm : admissibleB p ss x = true := by
        simpa using (List.mem_filter.mp (by simpa [feasibleAssignments] using hxmem)).2
      intro i s r hs hx d hd
      have hbx : sol.x = x := by rw [← hsol]; rfl
      rw [hbx] at hx
      have hrow := (admissibleB_spec hadm).2 i s r hs hx
      exact (rowOk_spec hrow).2 d hd

/-- C1 witness: a one-soldier, one-day instance whose only soldier is
unavailable on the single day; the returned schedule assigns Home there. -/
theorem returned_solution_respects_unavailability_witness :
    (([false] : List Bool))[0]? = some false :=
  returned_solution_respects_unavailability
    ⟨0, 0, 1, 0, 1, 1, 1, 1⟩ [⟨1, "A", [0], false, false⟩]
    ⟨[[false]], 1001100, [0], [0]⟩ Status.OPTIMAL (by rfl)
    0 ⟨1, "A", [0], false, false⟩ [false] (by rfl) (by rfl) 0 (by decide)

/-- C2: daily coverage is purely soft.  For every validated input with a
non-empty soldier list the model admits an assignment and the solver
returns a solution (status `OPTIMAL` for the idealized exhaustive driver,
never `INFEASIBLE`); when the required daily minimum exceeds the number of
soldiers, the returned solution carries strictly positive coverage slack.
No hard floor (such as `min_required - 2`) constrains coverage: the
admissible set never depends on `minRequired`. -/
theorem coverage_purely_soft
    (p : Params) (ss : List Soldier) (hne : ss ≠ [])
    (hdays : 0 < p.endDate - p.startDate + 1)
    (hbt : 0 ≤ p.baseTarget) (hht : 0 ≤ p.homeTarget)
    (hids : uniqueIds ss = true) :
    statusOf (solve p ss) = some Status.OPTIMAL ∧
    (returnedShortfallSum p ss).isSome = true ∧
    (ss.length < p.minRequired → 0 < (returnedShortfallSum p ss).getD 0) := by
  obtain ⟨x, hxmem, hsolve⟩ := solve_opt (validateInput_none hne hdays hbt hht hids)
  have hshort : returnedShortfallSum p ss = some (shortfallSum p x) := by
    unfold returnedShortfallSum
    rw [hsolve]
    rfl
  refine ⟨by rw [hsolve]; rfl, by rw [hshort]; rfl, ?_⟩
  intro hlt
  rw [hshort]
  have hadm : admissibleB p ss x = true := by
    simpa using (List.mem_filter.mp (by simpa [feasibleAssignments] using hxmem)).2
  have hlen : x.length = ss.length := (admissibleB_spec hadm).1
  have hT : 0 < p.nDays := by unfold Params.nDays; omega
  have hcb : dailyCount x 0 ≤ ss.length := by
    rw [← hlen]
    exact List.length_filter_le _ _
  have h₀ : 0 < shortfall p x 0 := by unfold shortfall; omega
  have hmem₀ : shortfall p x 0 ∈ (List.range p.nDays).map (shortfall p x) :=
    List.mem_map_of_mem _ (List.mem_range.mpr hT)
  have hle : shortfall p x 0 ≤ shortfallSum p x := List.le_sum_of_mem hmem₀
  simp only [Option.getD_some]
  omega

/-- C2 witness: one soldier over a one-day horizon with a required daily
minimum of two; the solver returns a solution with positive slack. -/
theorem coverage_purely_soft_witness :
    statusOf (solve ⟨0, 0, 1, 0, 1, 1, 1, 2⟩ [⟨1, "A", [], false, false⟩])
      = some Status.OPTIMAL ∧
    (returnedShortfallSum ⟨0, 0, 1, 0, 1, 1, 1, 2⟩ [⟨1, "A", [], false, false⟩]).isSome
      = true ∧
    (([⟨1, "A", [], false, false⟩] : List Soldier).length
        < (⟨0, 0, 1, 0, 1, 1, 1, 2⟩ : Params).minRequired →
      0 < (returnedShortfallSum ⟨0, 0, 1, 0, 1, 1, 1, 2⟩
            [⟨1, "A", [], false, false⟩]).getD 0) :=
  coverage_purely_soft ⟨0, 0, 1, 0, 1, 1, 1, 2⟩ [⟨1, "A", [], false, false⟩]
    (by simp) (by decide) (by decide) (by decide) (by rfl)

/-- C3: the configured penalty weights satisfy the strict priority chain
of section 4.2.4: one-day block over long home over long base over
shortage over target, with target at least the short-block weight. -/
theorem penalty_priority_chain :
    config.W_ONE_DAY > config.W_LONG_HOME ∧
    config.W_LONG_HOME > config.W_LONG_BASE ∧
    config.W_LONG_BASE > config.W_SHORTAGE ∧
    config.W_SHORTAGE > config.W_TARGET ∧
    config.W_TARGET ≥ config.W_SHORT_BLOCK := by
  decide

/-- C4: determinism — two solve calls with identical inputs produce the
same status, and when that status is `OPTIMAL` they produce the same
objective value.  In this embedding the driver is a pure function of its
inputs (fixed variable order and seed), so both runs coincide. -/
theorem solve_deterministic (p : Params) (ss : List Soldier)
    (r₁ r₂ : Except ValidationError (Option Solution × Status))
    (h₁ : r₁ = solve p ss) (h₂ : r₂ = solve p ss) :
    statusOf r₁ = statusOf r₂ ∧
    (statusOf r₁ = some Status.OPTIMAL → objectiveOf r₁ = objectiveOf r₂) := by
  subst h₁
  subst h₂
  exact ⟨rfl, fun _ => rfl⟩

/-- C4 witness: two runs on the same one-soldier, one-day input agree on
status and objective. -/
theorem solve_deterministic_witness :
    statusOf (solve ⟨0, 0, 1, 0, 1, 1, 1, 1⟩ [⟨1, "A", [], false, false⟩])
      = statusOf (solve ⟨0, 0, 1, 0, 1, 1, 1, 1⟩ [⟨1, "A", [], false, false⟩]) ∧
    (statusOf (solve ⟨0, 0, 1, 0, 1, 1, 1, 1⟩ [⟨1, "A", [], false, false⟩])
        = some Status.OPTIMAL →
      objectiveOf (solve ⟨0, 0, 1, 0, 1, 1, 1, 1⟩ [⟨1, "A", [], false, false⟩])
        = objectiveOf (solve ⟨0, 0, 1, 0, 1, 1, 1, 1⟩ [⟨1, "A", [], false, false⟩])) :=
  solve_deterministic ⟨0, 0, 1, 0, 1, 1, 1, 1⟩ [⟨1, "A", [], false, false⟩] _ _ rfl rfl

/-- C5: a solve call with an empty soldier list fails fast with the
`EmptyPopulation` input-validation error; the definition short-circuits
before any model is built or minimized. -/
theorem solve_empty_population (p : Params) :
    solve p [] = Except.error ValidationError.emptyPopulation := rfl

/-- C6: a completed solve call always yields a pair of an optional
solution and a status among `OPTIMAL`, `FEASIBLE`, `INFEASIBLE`,
`UNKNOWN`; the solution is absent exactly when the status is `INFEASIBLE`
or `UNKNOWN`, and present exactly when it is `OPTIMAL` or `FEASIBLE`. -/
theorem solve_result_shape (p : Params) (ss : List Soldier)
    (q : Option Solution) (st : Status)
    (h : solve p ss = .ok (q, st)) :
    (st = Status.OPTIMAL ∨ st = Status.FEASIBLE ∨ st = Status.INFEASIBLE ∨
      st = Status.UNKNOWN) ∧
    (q = none ↔ (st = Status.INFEASIBLE ∨ st = Status.UNKNOWN)) ∧
    (q.isSome = true ↔ (st = Status.OPTIMAL ∨ st = Status.FEASIBLE)) := by
  unfold solve at h
  cases hv : validateInput p ss with
  | some e => rw [hv] at h; simp at h
  | none =>
    rw [hv] at h
    cases hpk : pickMin (objective p ss) (feasibleAssignments p ss) with
    | none =>
      rw [hpk] at h
      simp only [Except.ok.injEq, Prod.mk.injEq] at h
      obtain ⟨hq, hst⟩ := h
      subst hq
      subst hst
      simp
    | some x =>
      rw [hpk] at h
      simp only [Except.ok.injEq, Prod.mk.injEq] at h
      obtain ⟨hq, hst⟩ := h
      subst hq
      subst hst
      simp

/-- C6 witness: the one-soldier, one-day instance returns a present
solution with status `OPTIMAL`, matching the shape property. -/
theorem solve_result_shape_witness :
    (Status.OPTIMAL = Status.OPTIMAL ∨ Status.OPTIMAL = Status.FEASIBLE ∨
      Status.OPTIMAL = Status.INFEASIBLE ∨ Status.OPTIMAL = Status.UNKNOWN) ∧
    ((some (⟨[[true]], 1000000, [1], [1]⟩ : Solution) = none) ↔
      (Status.OPTIMAL = Status.INFEASIBLE ∨ Status.OPTIMAL = Status.UNKNOWN)) ∧
    ((some (⟨[[true]], 1000000, [1], [1]⟩ : Solution)).isSome = true ↔
      (Status.OPTIMAL = Status.OPTIMAL ∨ Status.OPTIMAL = Status.FEASIBLE)) :=
  solve_result_shape ⟨0, 0, 1, 0, 1, 1, 1, 1⟩ [⟨1, "A", [], false, false⟩]
    (some ⟨[[true]], 1000000, [1], [1]⟩) Status.OPTIMAL (by rfl)

end ScheduleManage

namespace ScheduleManage

/-- C7: the diagnostic min-blocks arithmetic of `diagnostic_test.py` is
exact: for a non-negative base target and a positive maximum run length,
`(base_days + max_consec_base - 1) // max_consec_base` equals the
mathematical ceiling of `base_days / max_consec_base`, and the implied gap
days equal `(min_blocks - 1) * min_base_block`. -/
theorem diagnostic_min_blocks_exact (base k m : Int) (hb : 0 ≤ base) (hk : 1 ≤ k) :
    min_blocks base k = ⌈(base : ℚ) / (k : ℚ)⌉ ∧
    min_gap_days base k m = (min_blocks base k - 1) * m := by
  refine ⟨?_, rfl⟩
  have hk0 : (0 : Int) < k := by omega
  have ha : (0 : Int) ≤ base + k - 1 := by omega
  have h₁ : (((base + k - 1).toNat : Int)) = base + k - 1 := Int.toNat_of_nonneg ha
  have h₂ : ((k.toNat : Int)) = k := Int.toNat_of_nonneg (by omega)
  have hfd : min_blocks base k = (((base + k - 1).toNat / k.toNat : Nat) : Int) := by
    unfold min_blocks
    rw [← h₁, ← h₂]
    exact (Int.ofNat_fdiv _ _).symm
  have hdm := Nat.div_add_mod (base + k - 1).toNat k.toNat
  have hmod : (base + k - 1).toNat % k.toNat < k.toNat := Nat.mod_lt _ (by omega)
  have hdmZ : (k.toNat : Int) * (((base + k - 1).toNat / k.toNat : Nat) : Int)
      + (((base + k - 1).toNat % k.toNat : Nat) : Int)
      = ((base + k - 1).toNat : Int) := by exact_mod_cast hdm
  rw [h₁] at hdmZ
  rw [h₂] at hdmZ
  have hrZ : (((base + k - 1).toNat % k.toNat : Nat) : Int) < k := by
    have hcast := Int.ofNat_lt.mpr hmod
    rw [h₂] at hcast
    exact hcast
  have hr0 : (0 : Int) ≤ (((base + k - 1).toNat % k.toNat : Nat) : Int) :=
    Int.natCast_nonneg _
  obtain ⟨P, hP⟩ : ∃ P : Int,
      k * (((base + k - 1).toNat / k.toNat : Nat) : Int) = P := ⟨_, rfl⟩
  rw [hP] at hdmZ
  have hB : base ≤ P := by omega
  have hA : P < base + k := by omega
  rw [hfd, eq_comm, Int.ceil_eq_iff]
  have hkQ : (0 : ℚ) < (k : ℚ) := by exact_mod_cast hk0
  constructor
  · rw [lt_div_iff₀ hkQ]
    have hA' : ((((base + k - 1).toNat / k.toNat : Nat) : Int) - 1) * k < base := by
      have hexp : ((((base + k - 1).toNat / k.toNat : Nat) : Int) - 1) * k = P - k := by
        rw [← hP]
        ring
      omega
    exact_mod_cast hA'
  · rw [div_le_iff₀ hkQ]
    have hB' : base ≤ (((base + k - 1).toNat / k.toNat : Nat) : Int) * k := by
      have hexp : (((base + k - 1).toNat / k.toNat : Nat) : Int) * k = P := by
        rw [← hP]
        ring
      omega
    exact_mod_cast hB'

/-- C7 witness: a base target of 14 with runs of at most 7 needs two
blocks and one gap of the minimum block length 3. -/
theorem diagnostic_min_blocks_exact_witness :
    min_blocks 14 7 = ⌈((14 : Int) : ℚ) / ((7 : Int) : ℚ)⌉ ∧
    min_gap_days 14 7 3 = (min_blocks 14 7 - 1) * 3 :=
  diagnostic_min_blocks_exact 14 7 3 (by decide) (by decide)

/-- C8: the weekend classification is a fixed constant of the system —
Friday, Saturday and Sunday with Python weekday numbers 4, 5 and 6 — and
for every input date the weekend predicate holds exactly on that set; no
caller-supplied data reaches the classification. -/
theorem weekend_classification_fixed :
    config.FRIDAY_WEEKDAY = 4 ∧ config.SATURDAY_WEEKDAY = 5 ∧ config.SUNDAY_WEEKDAY = 6 ∧
    ∀ (p : Params) (d : Nat), isWeekendDay p d = true ↔
      (weekdayOf (p.startDate + d) = config.FRIDAY_WEEKDAY ∨
       weekdayOf (p.startDate + d) = config.SATURDAY_WEEKDAY ∨
       weekdayOf (p.startDate + d) = config.SUNDAY_WEEKDAY) := by
  refine ⟨rfl, rfl, rfl, fun p d => ?_⟩
  unfold isWeekendDay isWeekendWeekday
  simp only [Bool.or_eq_true, beq_iff_eq]
  exact or_assoc

/-- C9: the diagnostic resource report divides available soldier-days by
`min_required * total_days` without a guard; the division is well-defined
exactly when both `min_required` and the day count are positive, and the
divisor is zero — the division-by-zero branch — whenever `min_required`
is zero. -/
theorem diagnostic_quotient_guard (minReq t : Nat) (avail : Int) :
    resourceQuotient avail (required_days minReq t) = none ↔ minReq = 0 ∨ t = 0 := by
  have hz : required_days minReq t = 0 ↔ (minReq = 0 ∨ t = 0) := by
    unfold required_days
    rw [Nat.cast_eq_zero, Nat.mul_eq_zero]
  unfold resourceQuotient
  split
  · next hcond => exact iff_of_true rfl (hz.mp hcond)
  · next hcond => exact iff_of_false (by simp) (fun hor => hcond (hz.mpr hor))

/-- C10: the register endpoint is atomic on error.  Whenever the username
or password is missing (Python-falsy), the username is taken, or the
password is shorter than six characters, it answers 400 and the state is
unchanged (no user, no token); otherwise it answers 201, appends exactly
one user and exactly one fresh token, and returns that token. -/
theorem register_atomic (st : AuthState) (req : RegisterRequest)
    (hint : TokenIntegrity st) :
    (registerRejects st req = true →
      (register st req).1.httpStatus = 400 ∧ (register st req).2 = st ∧
      (register st req).1.token = none) ∧
    (registerRejects st req = false →
      (register st req).1.httpStatus = 201 ∧
      (register st req).2.users = st.users ++ [req.username.getD ""] ∧
      (register st req).2.tokens = st.tokens ++ [(req.username.getD "", st.nextKey)] ∧
      (register st req).1.token = some st.nextKey) := by
  constructor
  · intro hrej
    unfold register
    by_cases h₁ : (falsyStr req.username || falsyStr req.password) = true
    · rw [if_pos h₁]
      exact ⟨rfl, rfl, rfl⟩
    · rw [if_neg h₁]
      by_cases h₂ : req.username.getD "" ∈ st.users
      · rw [if_pos h₂]
        exact ⟨rfl, rfl, rfl⟩
      · rw [if_neg h₂]
        by_cases h₃ : (req.password.getD "").length < 6
        · rw [if_pos h₃]
          exact ⟨rfl, rfl, rfl⟩
        · exfalso
          unfold registerRejects at hrej
          simp [h₁, h₂, h₃] at hrej
  · intro hrej
    unfold registerRejects at hrej
    simp only [Bool.or_eq_false_iff, decide_eq_false_iff_not] at hrej
    obtain ⟨⟨⟨hu, hp⟩, hc⟩, hlen⟩ := hrej
    unfold register
    rw [if_neg (by simp [hu, hp]), if_neg hc, if_neg hlen]
    have hfind : st.tokens.find? (fun t => t.1 == req.username.getD "") = none := by
      rw [List.find?_eq_none]
      intro t ht hbeq
      have heq : t.1 = req.username.getD "" := by simpa using hbeq
      have hmem := hint t ht
      rw [heq] at hmem
      exact hc hmem
    rw [hfind]
    exact ⟨rfl, rfl, rfl, rfl⟩

/-- C10 witness: registering the user john with a six-character-plus
password on an empty server state creates one user and one token and
returns 201 with that token. -/
theorem register_atomic_witness :
    (registerRejects ⟨[], [], 0⟩ ⟨some "john", some "secret123", none⟩ = true →
      (register ⟨[], [], 0⟩ ⟨some "john", some "secret123", none⟩).1.httpStatus = 400 ∧
      (register ⟨[], [], 0⟩ ⟨some "john", some "secret123", none⟩).2 = ⟨[], [], 0⟩ ∧
      (register ⟨[], [], 0⟩ ⟨some "john", some "secret123", none⟩).1.token = none) ∧
    (registerRejects ⟨[], [], 0⟩ ⟨some "john", some "secret123", none⟩ = false →
      (register ⟨[], [], 0⟩ ⟨some "john", some "secret123", none⟩).1.httpStatus = 201 ∧
      (register ⟨[], [], 0⟩ ⟨some "john", some "secret123", none⟩).2.users
        = [] ++ ["john"] ∧
      (register ⟨[], [], 0⟩ ⟨some "john", some "secret123", none⟩).2.tokens
        = [] ++ [("john", 0)] ∧
      (register ⟨[], [], 0⟩ ⟨some "john", some "secret123", none⟩).1.token = some 0) :=
  register_atomic ⟨[], [], 0⟩ ⟨some "john", some "secret123", none⟩
    (by intro t ht; simp at ht)

end ScheduleManage
